import Mathlib

/-!
Verification of the historical snapshot pipeline (snapshot ingestor, delta
engine, aggregator) of the observational-studies repository.

The Lean definitions below are shallow embeddings of the Python sources:
 - pipeline/scratch/analyze_historical_duckdb.py   (DuckDB delta engine + aggregator)
 - pipeline/scratch/analyze_historical_pandas.py   (pandas delta engine + aggregator)
 - pipeline/scratch/analyze_historical_postgres.py (PostgreSQL delta engine + aggregator)
 - pipeline/scratch/clean_historical_pandas.py     (snapshot cleaner)
 - pipeline/src/downloadModelsData.py              (snapshot ingestor)

Dates are modelled as the 8-digit YYYYMMDD number parsed from the snapshot
filename; ordering of those numbers coincides with ordering of the
YYYY-MM-DD date strings the scripts actually carry around.
-/

deriving instance DecidableEq for Except

/-! ## Generic list machinery: a stable insertion sort keyed by a Bool
comparison, standing in for SQL ORDER BY / pandas sort_values. -/

def insertBy {α : Type} (le : α → α → Bool) (x : α) : List α → List α
  | [] => [x]
  | y :: ys => if le x y then x :: y :: ys else y :: insertBy le x ys

def sortBy {α : Type} (le : α → α → Bool) : List α → List α
  | [] => []
  | x :: xs => insertBy le x (sortBy le xs)

/-! ## String helpers (filenames are compared and matched on their
character lists, mirroring Python string handling). -/

/-- Lexicographic order on character lists by code point, as Python
`sorted` orders filenames. -/
def lexLe : List Char → List Char → Bool
  | [], _ => true
  | _ :: _, [] => false
  | a :: as, b :: bs => if a = b then lexLe as bs else decide (a.toNat < b.toNat)

def strLe (a b : String) : Bool := lexLe a.data b.data

def strLt (a b : String) : Bool := strLe a b && !(a == b)

/-- The directory glob `models-*.parquet` used by both the DuckDB engine and
the cleaner to discover snapshot files. -/
def globMatch (s : String) : Bool :=
  "models-".data.isPrefixOf s.data && ".parquet".data.isSuffixOf s.data

def digitVal (c : Char) : Nat := c.toNat - 48

def digitsToNat (l : List Char) : Nat := l.foldl (fun a c => 10 * a + digitVal c) 0

/-- Model of `extract_date_from_filename` (analyze_historical_duckdb.py):
`re.search` for `models-(8 digits)-` anywhere in the filename; returns the
date as the 8-digit number, or `none` when the pattern does not occur. -/
def searchModelsDate : List Char → Option Nat
  | [] => none
  | c :: rest =>
    if "models-".data.isPrefixOf (c :: rest) then
      let t := (c :: rest).drop 7
      let d8 := t.take 8
      if d8.length = 8 && d8.all (fun d => d.isDigit) && (t.drop 8).head? = some '-' then
        some (digitsToNat d8)
      else searchModelsDate rest
    else searchModelsDate rest

def extract_date_from_filename (s : String) : Option Nat := searchModelsDate s.data

/-- Lower-case hex characters, the `[a-f0-9]` class of the cleaner regex. -/
def isHexLower (c : Char) : Bool := c.isDigit || (97 ≤ c.toNat && c.toNat ≤ 102)

/-- Model of `parse_snapshot_date` (clean_historical_pandas.py):
`re.match` of `models-(8 digits)-(1+ lower hex).parquet` anchored at the
start of the filename; `none` models the raised ValueError. -/
def parse_snapshot_date (s : String) : Option Nat :=
  let l := s.data
  if "models-".data.isPrefixOf l then
    let t := l.drop 7
    let d8 := t.take 8
    if d8.length = 8 && d8.all (fun d => d.isDigit) then
      match t.drop 8 with
      | '-' :: u =>
        let hexRun := u.takeWhile isHexLower
        if 1 ≤ hexRun.length && ".parquet".data.isPrefixOf (u.drop hexRun.length) then
          some (digitsToNat d8)
        else none
      | _ => none
    else none
  else none

/-! ## Data model of the delta engine (DuckDB implementation). -/

/-- A raw row of one snapshot file: both columns may be null. -/
structure RawRow where
  id : Option String
  downloadsAllTime : Option Int
deriving DecidableEq

/-- A row of the `all_snapshots` union table (after the load-time WHERE
filter of the DuckDB engine). -/
structure LoadedRow where
  snapshot_date : Nat
  id : String
  author : String
  downloadsAllTime : Int
deriving DecidableEq

/-- A row of the `daily_model_downloads` table; `daily_downloads` is null
(`none`) where SQL LAG has no predecessor. -/
structure DeltaRow where
  snapshot_date : Nat
  id : String
  author : String
  downloadsAllTime : Int
  daily_downloads : Option Int
deriving DecidableEq

/-- A row of the `author_daily_downloads` output table. -/
structure AggRow where
  snapshot_date : Nat
  author : String
  n_models : Nat
  total_daily_downloads : Int
  avg_daily_downloads_per_model : ℚ
  total_cumulative_downloads : Int
deriving DecidableEq

/-- `SPLIT_PART(id, '/', 1)`: the part of the string before the first `/`;
the whole string when there is no `/`. -/
def split_part_1 (s : String) : String := ⟨s.data.takeWhile (fun c => c ≠ '/')⟩

/-- The load-time row filter and projection of the DuckDB engine
(`WHERE id IS NOT NULL AND downloadsAllTime IS NOT NULL AND
SPLIT_PART(id, '/', 1) != ''`). -/
def loadRow (d : Nat) (r : RawRow) : Option LoadedRow :=
  match r.id, r.downloadsAllTime with
  | some i, some v =>
    if split_part_1 i = "" then none
    else some { snapshot_date := d, id := i, author := split_part_1 i, downloadsAllTime := v }
  | _, _ => none

def distinctIds (rows : List LoadedRow) : List String := (rows.map (fun r => r.id)).dedup

def rowsFor (rows : List LoadedRow) (i : String) : List LoadedRow :=
  rows.filter (fun r => decide (r.id = i))

def rowLe (a b : LoadedRow) : Bool := decide (a.snapshot_date ≤ b.snapshot_date)

def mkDelta (r : LoadedRow) (d : Option Int) : DeltaRow :=
  { snapshot_date := r.snapshot_date, id := r.id, author := r.author,
    downloadsAllTime := r.downloadsAllTime, daily_downloads := d }

/-- One partition of the LAG window: each row paired with the previous
row's counter value (the accumulator), in date order. -/
def withLagAux (prev : Option Int) : List LoadedRow → List DeltaRow
  | [] => []
  | r :: rest =>
    mkDelta r (prev.map (fun p => r.downloadsAllTime - p)) :: withLagAux (some r.downloadsAllTime) rest

/-- One id-partition of the window, ordered by snapshot_date. -/
def idGroup (rows : List LoadedRow) (i : String) : List LoadedRow :=
  sortBy rowLe (rowsFor rows i)

/-- The `daily_model_downloads` table:
`downloadsAllTime - LAG(downloadsAllTime) OVER (PARTITION BY id ORDER BY snapshot_date)`. -/
def daily_model_downloads (rows : List LoadedRow) : List DeltaRow :=
  (distinctIds rows).flatMap (fun i => withLagAux none (idGroup rows i))

/-- The aggregation filter `daily_downloads IS NOT NULL AND daily_downloads >= 0`. -/
def validDelta (d : Option Int) : Bool :=
  match d with
  | some v => decide (0 ≤ v)
  | none => false

def validRows (dt : List DeltaRow) : List DeltaRow := dt.filter (fun r => validDelta r.daily_downloads)

def aggKeys (dt : List DeltaRow) : List (Nat × String) :=
  ((validRows dt).map (fun r => (r.snapshot_date, r.author))).dedup

def groupRows (dt : List DeltaRow) (k : Nat × String) : List DeltaRow :=
  (validRows dt).filter (fun r => decide (r.snapshot_date = k.1) && decide (r.author = k.2))

def intSum (l : List Int) : Int := l.foldr (fun a b => a + b) 0

/-- One GROUP BY (snapshot_date, author) result row of the DuckDB aggregator. -/
def mkAggRow (dt : List DeltaRow) (k : Nat × String) : AggRow :=
  let g := groupRows dt k
  { snapshot_date := k.1, author := k.2,
    n_models := ((g.map (fun r => r.id)).dedup).length,
    total_daily_downloads := intSum (g.map (fun r => r.daily_downloads.getD 0)),
    avg_daily_downloads_per_model :=
      mkRat (intSum (g.map (fun r => r.daily_downloads.getD 0))) g.length,
    total_cumulative_downloads := intSum (g.map (fun r => r.downloadsAllTime)) }

/-- `ORDER BY snapshot_date, total_daily_downloads DESC`. -/
def aggLe (a b : AggRow) : Bool :=
  decide (a.snapshot_date < b.snapshot_date) ||
    (decide (a.snapshot_date = b.snapshot_date) && decide (b.total_daily_downloads ≤ a.total_daily_downloads))

/-- The `author_daily_downloads` table of the DuckDB aggregator. -/
def author_daily_downloads (dt : List DeltaRow) : List AggRow :=
  sortBy aggLe ((aggKeys dt).map (mkAggRow dt))

/-- Model of `process_historical_data` (analyze_historical_duckdb.py): a
run over a set of input files, each a filename together with its rows.
Error strings model the raised ValueErrors (the directory interpolated
into the real message is not part of the model). -/
def process_historical_data (files : List (String × List RawRow)) :
    Except String (List AggRow) :=
  let parquet_files := sortBy (fun a b => strLe a.1 b.1) (files.filter (fun f => globMatch f.1))
  if parquet_files.isEmpty then .error "No parquet files found"
  else
    let dated := parquet_files.filterMap
      (fun f => (extract_date_from_filename f.1).map (fun d => (d, f.2)))
    if dated.isEmpty then .error "No valid dates extracted from filenames"
    else
      let all_snapshots := dated.flatMap (fun p => p.2.filterMap (loadRow p.1))
      .ok (author_daily_downloads (daily_model_downloads all_snapshots))

/-! ## Pandas implementation (analyze_historical_pandas.py). -/

/-- `extract_author` of the pandas engine: part before the first slash, or
the whole id when there is no slash. -/
def extract_author (model_id : String) : String :=
  if '/' ∈ model_id.data then ⟨model_id.data.takeWhile (fun c => c ≠ '/')⟩ else model_id

/-- A row of the historical CSV consumed by the pandas engine. -/
structure PdRow where
  id : String
  downloadsAllTime : Int
  snapshot_date : Nat
deriving DecidableEq

/-- A row of the pandas per-model frame after the daily-downloads
computation; `daily_downloads` is an Int, never null, because the engine
fills the first-day NaN with the raw counter value. -/
structure PdDeltaRow where
  id : String
  author : String
  snapshot_date : Nat
  downloadsAllTime : Int
  daily_downloads : Int
deriving DecidableEq

/-- `sort_values(['id', 'snapshot_date'])`. -/
def pdLe (a b : PdRow) : Bool :=
  strLt a.id b.id || (a.id == b.id && decide (a.snapshot_date ≤ b.snapshot_date))

/-- One pass over the sorted frame: `groupby('id').diff()`, then
`fillna(downloadsAllTime)`, then negatives set to 0 — as in lines 100-107
of analyze_historical_pandas.py. -/
def pandasDeltaAux : Option (String × Int) → List PdRow → List PdDeltaRow
  | _, [] => []
  | prev, r :: rest =>
    let diff : Option Int :=
      match prev with
      | some pv => if pv.1 = r.id then some (r.downloadsAllTime - pv.2) else none
      | none => none
    let filled := diff.getD r.downloadsAllTime
    let daily := if filled < 0 then 0 else filled
    { id := r.id, author := extract_author r.id, snapshot_date := r.snapshot_date,
      downloadsAllTime := r.downloadsAllTime, daily_downloads := daily } ::
      pandasDeltaAux (some (r.id, r.downloadsAllTime)) rest

/-- The pandas per-model daily-downloads frame (before the author
aggregation step). -/
def pandas_daily_downloads (rows : List PdRow) : List PdDeltaRow :=
  pandasDeltaAux none (sortBy pdLe rows)

/-! ## PostgreSQL implementation (analyze_historical_postgres.py). -/

/-- A row of the aggregated PostgreSQL output (author, snapshot_date,
total_daily_downloads). -/
structure PgAggRow where
  author : String
  snapshot_date : Nat
  total_daily_downloads : Int
deriving DecidableEq

/-- The `cleaned_diffs` CTE: LAG deltas per id ordered by date, then
CASE WHEN daily IS NULL THEN downloads_all_time WHEN daily < 0 THEN 0 END.
The LAG computation is the same window computation as the DuckDB engine's,
so the shared `daily_model_downloads` is reused for it. -/
def postgres_cleaned_diffs (rows : List LoadedRow) : List PgAggRow :=
  (daily_model_downloads rows).map (fun r =>
    { author := r.author, snapshot_date := r.snapshot_date,
      total_daily_downloads :=
        match r.daily_downloads with
        | none => r.downloadsAllTime
        | some v => if v < 0 then 0 else v })

/-- `ORDER BY author, snapshot_date` of the PostgreSQL final query. -/
def pgKeyLe (a b : String × Nat) : Bool :=
  strLt a.1 b.1 || (a.1 == b.1 && decide (a.2 ≤ b.2))

/-- The PostgreSQL author aggregation: GROUP BY author, snapshot_date with
SUM(daily_downloads), ORDER BY author, snapshot_date. -/
def postgres_author_daily (rows : List LoadedRow) : List PgAggRow :=
  let cleaned := postgres_cleaned_diffs rows
  let keys := sortBy pgKeyLe ((cleaned.map (fun r => (r.author, r.snapshot_date))).dedup)
  keys.map (fun k =>
    { author := k.1, snapshot_date := k.2,
      total_daily_downloads :=
        intSum ((cleaned.filter (fun r => decide (r.author = k.1) && decide (r.snapshot_date = k.2))).map
          (fun r => r.total_daily_downloads)) })

/-- Adjacent-pair check of the ordering C10 asserts for the final output:
ascending snapshot_date, then descending total within equal dates. -/
def dateThenTotalDescOk : List PgAggRow → Bool
  | [] => true
  | [_] => true
  | a :: b :: t =>
    (decide (a.snapshot_date < b.snapshot_date) ||
      (decide (a.snapshot_date = b.snapshot_date) && decide (b.total_daily_downloads ≤ a.total_daily_downloads))) &&
      dateThenTotalDescOk (b :: t)

/-! ## Cleaner (clean_historical_pandas.py). -/

/-- A row of the cleaner's combined output CSV (no row filtering happens in
the cleaner; only the tracked columns are modelled). -/
structure CleanRow where
  id : Option String
  downloadsAllTime : Option Int
  snapshot_date : Nat
deriving DecidableEq

/-- The per-file loop of `clean_historical_data`: the first file whose name
fails `parse_snapshot_date` aborts the run with the ValueError message. -/
def cleanGo : List (String × List RawRow) → Except String (List CleanRow)
  | [] => .ok []
  | f :: rest =>
    match parse_snapshot_date f.1 with
    | none => .error ("Filename " ++ f.1 ++ " does not match expected format")
    | some d =>
      match cleanGo rest with
      | .error e => .error e
      | .ok rows => .ok ((f.2.map (fun r => ⟨r.id, r.downloadsAllTime, d⟩)) ++ rows)

/-- Model of `clean_historical_data` (clean_historical_pandas.py). -/
def clean_historical_data (files : List (String × List RawRow)) :
    Except String (List CleanRow) :=
  let parquet_files := sortBy (fun a b => strLe a.1 b.1) (files.filter (fun f => globMatch f.1))
  if parquet_files.isEmpty then .error "No parquet files found"
  else cleanGo parquet_files

/-! ## Snapshot ingestor (downloadModelsData.py, download_historical_models_data).

Filenames and content hashes are modelled as naturals; a commit offers a
parquet candidate and a csv candidate, each with the deterministic output
filename for that commit and the content hash of the file at that revision
(`none` models a download failure / missing file, after which the loop
falls through to the next format). -/

structure FileRec where
  name : Nat
  hash : Nat
deriving DecidableEq

structure Commit where
  parquetName : Nat
  parquetHash : Option Nat
  csvName : Nat
  csvHash : Option Nat
deriving DecidableEq

structure IngestState where
  store : List FileRec
  seen : List Nat
  downloads : List Nat
  newFiles : List Nat
deriving DecidableEq

/-- `output_path.exists()`: the store is looked up by output filename. -/
def lookupFile (store : List FileRec) (n : Nat) : Option FileRec :=
  store.find? (fun f => f.name == n)

/-- The `for file_format in ["parquet", "csv"]` loop body: skip-existing
(seeding the seen-set with the recomputed hash of the file on disk),
download + skip-duplicate-content, or store the new snapshot; a missing
file at this revision falls through to the next candidate. -/
def tryCandidates : List (Nat × Option Nat) → IngestState → IngestState
  | [], s => s
  | (fname, h?) :: rest, s =>
    match lookupFile s.store fname with
    | some f => { s with seen := f.hash :: s.seen }
    | none =>
      match h? with
      | none => tryCandidates rest s
      | some h =>
        if h ∈ s.seen then { s with downloads := fname :: s.downloads }
        else { s with
                store := s.store ++ [FileRec.mk fname h],
                seen := h :: s.seen,
                downloads := fname :: s.downloads,
                newFiles := fname :: s.newFiles }

def Commit.candidates (c : Commit) : List (Nat × Option Nat) :=
  [(c.parquetName, c.parquetHash), (c.csvName, c.csvHash)]

def processCommit (s : IngestState) (c : Commit) : IngestState :=
  tryCandidates c.candidates s

def runFrom (cs : List Commit) (s : IngestState) : IngestState :=
  cs.foldl processCommit s

/-- Model of `download_historical_models_data`: one ingestion run over the
relevant commits (in processing order) against a pre-populated store; the
seen-hashes set starts empty on every run. -/
def download_historical_models_data (cs : List Commit) (store0 : List FileRec) : IngestState :=
  runFrom cs { store := store0, seen := [], downloads := [], newFiles := [] }

/-- All output filenames a commit list can store under. -/
def commitNames (cs : List Commit) : List Nat :=
  cs.flatMap (fun c => [c.parquetName, c.csvName])

/-! ## Concrete fixture inputs used by counterexamples and witnesses. -/

/-- Author `a` with one entity whose counter increases (delta 50) and one
whose counter decreases (delta -10) on the second date. -/
def exDeltaMixRows : List LoadedRow :=
  [⟨20250101, "a/x", "a", 100⟩, ⟨20250102, "a/x", "a", 150⟩,
   ⟨20250101, "a/y", "a", 100⟩, ⟨20250102, "a/y", "a", 90⟩]

/-- A badly named snapshot file next to two well-formed ones. -/
def exBadNameFiles : List (String × List RawRow) :=
  [("models-2025-01-01.parquet", [⟨some "a/x", some 999⟩]),
   ("models-20250101-abcdef1.parquet", [⟨some "a/x", some 100⟩]),
   ("models-20250102-abcdef2.parquet", [⟨some "a/x", some 150⟩])]

/-- A corpus whose only entity id has no separator, plus a row whose id has
an empty author part. -/
def exNoSepFiles : List (String × List RawRow) :=
  [("models-20250101-abcdef1.parquet", [⟨some "standalone-model", some 100⟩, ⟨some "/bad", some 5⟩]),
   ("models-20250102-abcdef2.parquet", [⟨some "standalone-model", some 150⟩, ⟨some "/bad", some 9⟩])]

/-- Two authors over two dates, used to exhibit the PostgreSQL output order. -/
def exTwoAuthorRows : List LoadedRow :=
  [⟨20250101, "a/x", "a", 100⟩, ⟨20250102, "a/x", "a", 105⟩,
   ⟨20250101, "b/y", "b", 200⟩, ⟨20250102, "b/y", "b", 207⟩]

/-- A new upstream commit (output name 20) whose file content (hash 5) is
byte-identical to a snapshot already on disk from an earlier run. -/
def exNewDupCommit : Commit := ⟨20, some 5, 21, none⟩

/-- The commit whose snapshot (name 10, hash 5) is already stored on disk. -/
def exStoredCommit : Commit := ⟨10, some 5, 11, none⟩

/-- Commit history fixture for the idempotence witness: a parquet commit, a
csv-only commit whose content duplicates it, and a second parquet commit. -/
def exHistory : List Commit := [⟨1, some 7, 2, none⟩, ⟨3, none, 4, some 7⟩, ⟨5, some 9, 6, none⟩]

/-- One entity observed on 2025-01-01 and 2025-01-03 with a calendar gap. -/
def exGapRows : List LoadedRow :=
  [⟨20250101, "acme/model-a", "acme", 100⟩, ⟨20250103, "acme/model-a", "acme", 130⟩]

/-- One entity whose counter drops from 150 to 130 (a reset anomaly). -/
def exDropRows : List LoadedRow :=
  [⟨20250102, "acme/model-a", "acme", 150⟩, ⟨20250103, "acme/model-a", "acme", 130⟩]

/-! ## Theorems. -/

theorem mem_insertBy {α : Type} (le : α → α → Bool) (x : α) (l : List α) (a : α) :
    a ∈ insertBy le x l ↔ a = x ∨ a ∈ l := by
  induction l with
  | nil => simp [insertBy]
  | cons y ys ih =>
    by_cases h : le x y
    · simp [insertBy, h]
    · simp [insertBy, h, ih]
      tauto

theorem perm_insertBy {α : Type} (le : α → α → Bool) (x : α) (l : List α) :
    List.Perm (insertBy le x l) (x :: l) := by
  induction l with
  | nil => simp [insertBy]
  | cons y ys ih =>
    by_cases h : le x y
    · simp [insertBy, h]
    · simp only [insertBy, h, if_neg, Bool.false_eq_true, ite_false]
      exact (ih.cons y).trans (List.Perm.swap x y ys)

theorem perm_sortBy {α : Type} (le : α → α → Bool) (l : List α) :
    List.Perm (sortBy le l) l := by
  induction l with
  | nil => simp [sortBy]
  | cons x xs ih =>
    exact (perm_insertBy le x (sortBy le xs)).trans (ih.cons x)

theorem mem_sortBy {α : Type} (le : α → α → Bool) (l : List α) (a : α) :
    a ∈ sortBy le l ↔ a ∈ l :=
  (perm_sortBy le l).mem_iff

theorem pairwise_insertBy {α : Type} (le : α → α → Bool)
    (htrans : ∀ a b c, le a b = true → le b c = true → le a c = true)
    (htot : ∀ a b, le a b = false → le b a = true)
    (x : α) (l : List α) (h : List.Pairwise (fun a b => le a b = true) l) :
    List.Pairwise (fun a b => le a b = true) (insertBy le x l) := by
  induction l with
  | nil => simp [insertBy]
  | cons y ys ih =>
    rcases List.pairwise_cons.mp h with ⟨hy, hys⟩
    by_cases hxy : le x y
    · simp only [insertBy, hxy, if_pos]
      refine List.pairwise_cons.mpr ⟨?_, h⟩
      intro b hb
      rcases List.mem_cons.mp hb with rfl | hb
      · exact hxy
      · exact htrans x y b hxy (hy b hb)
    · simp only [insertBy, hxy, Bool.false_eq_true, ite_false]
      refine List.pairwise_cons.mpr ⟨?_, ih hys⟩
      intro b hb
      rcases (mem_insertBy le x ys b).mp hb with hb | hb
      · rw [hb]
        exact htot x y (by simpa using hxy)
      · exact hy b hb

theorem pairwise_sortBy {α : Type} (le : α → α → Bool)
    (htrans : ∀ a b c, le a b = true → le b c = true → le a c = true)
    (htot : ∀ a b, le a b = false → le b a = true) (l : List α) :
    List.Pairwise (fun a b => le a b = true) (sortBy le l) := by
  induction l with
  | nil => simp [sortBy]
  | cons x xs ih => exact pairwise_insertBy le htrans htot x (sortBy le xs) ih


/-! ### C7: zero snapshot files is fatal. -/

/-- C7: if the input set contains zero snapshot files (nothing matches the
`models-*.parquet` glob), both the DuckDB delta engine and the cleaner
abort with the no-files error rather than emitting an empty table. -/
theorem zero_snapshot_files_is_fatal (files : List (String × List RawRow))
    (h : files.filter (fun f => globMatch f.1) = []) :
    process_historical_data files = .error "No parquet files found" ∧
      clean_historical_data files = .error "No parquet files found" := by
  have h1 : sortBy (fun a b => strLe a.1 b.1) (files.filter (fun f => globMatch f.1)) = [] := by
    rw [h]
    rfl
  constructor
  · simp [process_historical_data, h1]
  · simp [clean_historical_data, h1]

/-- Witness for C7 at a concrete input with no snapshot files. -/
theorem zero_snapshot_files_is_fatal_witness :
    ([("readme.txt", ([] : List RawRow))].filter (fun f => globMatch f.1) = []) ∧
      process_historical_data [("readme.txt", [])] = .error "No parquet files found" ∧
        clean_historical_data [("readme.txt", [])] = .error "No parquet files found" :=
  ⟨by decide, zero_snapshot_files_is_fatal [("readme.txt", [])] (by decide)⟩

/-! ### C1: first observed date and its delta. -/

/-- Counterexample to C1 as stated: in the pandas engine
(analyze_historical_pandas.py lines 100-103) the first observed snapshot of
an entity does NOT get a null delta; the NaN produced by `diff()` is filled
with the raw counter value, so a single observation of `acme/model-a` with
counter 100 yields a delta record whose `daily_downloads` is the raw 100. -/
theorem pandas_first_delta_is_raw_value :
    pandas_daily_downloads [⟨"acme/model-a", 100, 20250101⟩] =
      [⟨"acme/model-a", "acme", 20250101, 100, 100⟩] := by
  decide

/-! ### C2: negative deltas. -/

/-- Counterexample to C2 as stated: the pandas engine
(analyze_historical_pandas.py lines 105-107) does not pass a negative delta
through to the per-entity record; it replaces it with 0. A drop from 100
to 70 yields `daily_downloads = 0`, not -30. -/
theorem pandas_negative_delta_clamped_to_zero :
    pandas_daily_downloads [⟨"acme/model-a", 100, 20250101⟩, ⟨"acme/model-a", 70, 20250102⟩] =
      [⟨"acme/model-a", "acme", 20250101, 100, 100⟩,
       ⟨"acme/model-a", "acme", 20250102, 70, 0⟩] := by
  decide

/-! ### C5: files that fail the naming convention. -/

/-- Counterexample to C5 as stated: the DuckDB engine
(analyze_historical_duckdb.py lines 69-89) silently drops a globbed file
whose name fails the date pattern instead of aborting. The run over
`exBadNameFiles` succeeds, and the dropped file's counter value 999 is
nowhere in the output. -/
theorem duckdb_silently_skips_bad_filename :
    globMatch "models-2025-01-01.parquet" = true ∧
      extract_date_from_filename "models-2025-01-01.parquet" = none ∧
        process_historical_data exBadNameFiles =
          .ok [⟨20250102, "a", 1, 50, 50, 150⟩] := by
  refine ⟨by decide, by decide, ?_⟩
  decide

/-- If every file in the list fails `parse_snapshot_date`, or some file
does, the cleaner loop stops at the first failure with its ValueError. -/
theorem cleanGo_first_error (l : List (String × List RawRow))
    (hglob : ∀ f ∈ l, globMatch f.1 = true)
    (hbad : ∃ f ∈ l, parse_snapshot_date f.1 = none) :
    ∃ name, globMatch name = true ∧ parse_snapshot_date name = none ∧
      cleanGo l = .error ("Filename " ++ name ++ " does not match expected format") := by
  induction l with
  | nil => simp at hbad
  | cons f rest ih =>
    cases hp : parse_snapshot_date f.1 with
    | none =>
      exact ⟨f.1, hglob f (List.mem_cons_self f rest), hp, by simp [cleanGo, hp]⟩
    | some d =>
      have hbad' : ∃ g ∈ rest, parse_snapshot_date g.1 = none := by
        rcases hbad with ⟨g, hg, hgp⟩
        rcases List.mem_cons.mp hg with rfl | hg
        · rw [hp] at hgp
          exact absurd hgp (by simp)
        · exact ⟨g, hg, hgp⟩
      rcases ih (fun g hg => hglob g (List.mem_cons_of_mem f hg)) hbad' with ⟨name, h1, h2, h3⟩
      exact ⟨name, h1, h2, by simp [cleanGo, hp, h3]⟩

/-- C5 (amended): the cleaner (clean_historical_pandas.py, parse_snapshot_date)
does abort with a descriptive naming-convention error when a globbed
snapshot file fails the `models-<8 digits>-<hex>.parquet` pattern; the
DuckDB engine, in contrast, silently skips such a file (see the
counterexample). -/
theorem cleaner_rejects_bad_filename (files : List (String × List RawRow))
    (hbad : ∃ f ∈ files, globMatch f.1 = true ∧ parse_snapshot_date f.1 = none) :
    ∃ name, globMatch name = true ∧ parse_snapshot_date name = none ∧
      clean_historical_data files =
        .error ("Filename " ++ name ++ " does not match expected format") := by
  rcases hbad with ⟨f, hf, hfg, hfp⟩
  have hmemf : f ∈ sortBy (fun a b => strLe a.1 b.1) (files.filter (fun g => globMatch g.1)) := by
    rw [mem_sortBy]
    exact List.mem_filter.mpr ⟨hf, hfg⟩
  have hne : (sortBy (fun a b => strLe a.1 b.1) (files.filter (fun g => globMatch g.1))).isEmpty = false := by
    cases he : sortBy (fun a b => strLe a.1 b.1) (files.filter (fun g => globMatch g.1)) with
    | nil => rw [he] at hmemf; simp at hmemf
    | cons a l => rfl
  have hglob : ∀ g ∈ sortBy (fun a b => strLe a.1 b.1) (files.filter (fun h => globMatch h.1)),
      globMatch g.1 = true := by
    intro g hg
    rw [mem_sortBy] at hg
    exact (List.mem_filter.mp hg).2
  rcases cleanGo_first_error _ hglob ⟨f, hmemf, hfp⟩ with ⟨name, h1, h2, h3⟩
  refine ⟨name, h1, h2, ?_⟩
  simp only [clean_historical_data, hne, Bool.false_eq_true, if_false, ite_false]
  exact h3

/-- Witness for C5's amended theorem at a concrete badly-named file. -/
theorem cleaner_rejects_bad_filename_witness :
    (∃ f ∈ [("models-2025-01-01.parquet", ([] : List RawRow))],
        globMatch f.1 = true ∧ parse_snapshot_date f.1 = none) ∧
      ∃ name, globMatch name = true ∧ parse_snapshot_date name = none ∧
        clean_historical_data [("models-2025-01-01.parquet", [])] =
          .error ("Filename " ++ name ++ " does not match expected format") :=
  ⟨⟨("models-2025-01-01.parquet", []), by decide, by decide, by decide⟩,
    cleaner_rejects_bad_filename [("models-2025-01-01.parquet", [])]
      ⟨("models-2025-01-01.parquet", []), by decide, by decide, by decide⟩⟩

/-! ### C6: entity ids with no separator. -/

/-- Counterexample to C6 as stated: an entity id with no separator is NOT
excluded by the DuckDB engine. `SPLIT_PART` returns the whole string when
no `/` occurs, the load filter only rejects an empty author part, and the
standalone entity flows through to the delta table and the aggregate
output under the author "standalone-model". -/
theorem duckdb_keeps_no_separator_entity :
    process_historical_data exNoSepFiles =
      .ok [⟨20250102, "standalone-model", 1, 50, 50, 150⟩] := by
  decide

/-- C6 (amended): only rows whose id yields an EMPTY author part (empty id
or id starting with the separator) are excluded at load time; an id with
no separator at all is kept, with the author taken to be the whole id in
both the DuckDB loader and the pandas `extract_author`. -/
theorem loader_keeps_no_separator_id (d : Nat) (v : Int) (i : String)
    (hns : '/' ∉ i.data) (hne : i ≠ "") :
    split_part_1 i = i ∧
      loadRow d ⟨some i, some v⟩ = some ⟨d, i, i, v⟩ ∧
        extract_author i = i := by
  have hdata : i.data.takeWhile (fun c => decide (c ≠ '/')) = i.data := by
    rw [List.takeWhile_eq_self_iff]
    intro a ha
    simp only [decide_eq_true_eq]
    intro h
    exact hns (h ▸ ha)
  have hsp : split_part_1 i = i := by
    unfold split_part_1
    rw [hdata]
  refine ⟨hsp, ?_, ?_⟩
  · simp only [loadRow, hsp, hne, ite_false]
  · simp only [extract_author, hns, ite_false]

/-- Witness for C6's amended theorem at the id "standalone-model". -/
theorem loader_keeps_no_separator_id_witness :
    ('/' ∉ "standalone-model".data ∧ ("standalone-model" : String) ≠ "") ∧
      (split_part_1 "standalone-model" = "standalone-model" ∧
        loadRow 20250101 ⟨some "standalone-model", some 100⟩ =
          some ⟨20250101, "standalone-model", "standalone-model", 100⟩ ∧
          extract_author "standalone-model" = "standalone-model") :=
  ⟨⟨by decide, by decide⟩,
    loader_keeps_no_separator_id 20250101 100 "standalone-model" (by decide) (by decide)⟩

/-! ### C10: output ordering of the aggregators. -/

theorem aggLe_trans (a b c : AggRow) (h1 : aggLe a b = true) (h2 : aggLe b c = true) :
    aggLe a c = true := by
  simp only [aggLe, Bool.or_eq_true, Bool.and_eq_true, decide_eq_true_eq] at h1 h2 ⊢
  omega

theorem aggLe_total (a b : AggRow) (h : aggLe a b = false) : aggLe b a = true := by
  simp only [aggLe, Bool.or_eq_false_iff, Bool.and_eq_false_iff, Bool.or_eq_true,
    Bool.and_eq_true, decide_eq_true_eq, decide_eq_false_iff_not] at h ⊢
  omega

/-- C10 (amended): the DuckDB aggregator's final table is ordered by
ascending snapshot_date, then by descending total_daily_downloads within
equal dates, for every input; being a pure function of the input, the
order is reproducible. The PostgreSQL implementation instead orders by
(author, snapshot_date) — see the counterexample. -/
theorem duckdb_output_date_then_total_ordered (dt : List DeltaRow) :
    List.Pairwise
      (fun a b : AggRow => a.snapshot_date < b.snapshot_date ∨
        (a.snapshot_date = b.snapshot_date ∧ b.total_daily_downloads ≤ a.total_daily_downloads))
      (author_daily_downloads dt) := by
  have hp := pairwise_sortBy aggLe aggLe_trans aggLe_total ((aggKeys dt).map (mkAggRow dt))
  refine List.Pairwise.imp ?_ hp
  intro a b hab
  simpa only [aggLe, Bool.or_eq_true, Bool.and_eq_true, decide_eq_true_eq] using hab

/-- Counterexample to C10 as stated: the PostgreSQL aggregator
(analyze_historical_postgres.py, `ORDER BY author, snapshot_date`) emits
the author "a" rows for both dates before any author "b" row, so the
output is not ascending by snapshot_date with descending totals within a
date. -/
theorem postgres_output_not_date_ordered :
    postgres_author_daily exTwoAuthorRows =
      [⟨"a", 20250101, 100⟩, ⟨"a", 20250102, 5⟩, ⟨"b", 20250101, 200⟩, ⟨"b", 20250102, 7⟩] ∧
      dateThenTotalDescOk (postgres_author_daily exTwoAuthorRows) = false := by
  constructor
  · decide
  · decide

/-! ### C8: content deduplication of the ingestor. -/

/-- The candidate loop preserves the invariant "stored hashes are distinct
and every stored hash is in the seen-set". -/
theorem tryCandidates_hash_inv (L : List (Nat × Option Nat)) (s : IngestState)
    (h1 : (s.store.map FileRec.hash).Nodup)
    (h2 : ∀ f ∈ s.store, f.hash ∈ s.seen) :
    ((tryCandidates L s).store.map FileRec.hash).Nodup ∧
      ∀ f ∈ (tryCandidates L s).store, f.hash ∈ (tryCandidates L s).seen := by
  induction L generalizing s with
  | nil => exact ⟨h1, h2⟩
  | cons p rest ih =>
    rcases p with ⟨n, h?⟩
    simp only [tryCandidates]
    cases hl : lookupFile s.store n with
    | some f =>
      exact ⟨h1, fun g hg => List.mem_cons_of_mem _ (h2 g hg)⟩
    | none =>
      cases h? with
      | none => exact ih s h1 h2
      | some h =>
        by_cases hseen : h ∈ s.seen
        · simp only [hseen, if_pos]
          exact ⟨h1, h2⟩
        · simp only [hseen, if_neg, ite_false]
          constructor
          · rw [List.map_append]
            rw [List.nodup_append]
            refine ⟨h1, List.nodup_singleton h, ?_⟩
            intro x hx hx'
            simp only [List.map_cons, List.map_nil, List.mem_singleton] at hx'
            subst hx'
            rcases List.mem_map.mp hx with ⟨g, hg, hgh⟩
            exact hseen (hgh ▸ h2 g hg)
          · intro g hg
            rcases List.mem_append.mp hg with hg | hg
            · exact List.mem_cons_of_mem _ (h2 g hg)
            · simp only [List.mem_singleton] at hg
              subst hg
              exact List.mem_cons_self _ _

/-- The whole run preserves the stored-hash invariant. -/
theorem runFrom_hash_inv (cs : List Commit) (s : IngestState)
    (h1 : (s.store.map FileRec.hash).Nodup)
    (h2 : ∀ f ∈ s.store, f.hash ∈ s.seen) :
    ((runFrom cs s).store.map FileRec.hash).Nodup ∧
      ∀ f ∈ (runFrom cs s).store, f.hash ∈ (runFrom cs s).seen := by
  induction cs generalizing s with
  | nil => exact ⟨h1, h2⟩
  | cons c rest ih =>
    rcases tryCandidates_hash_inv c.candidates s h1 h2 with ⟨h1', h2'⟩
    exact ih (processCommit s c) h1' h2'

/-- C8 (amended): in a single ingestion run starting from an EMPTY store,
two upstream versions with identical byte content produce exactly one
stored snapshot: no two files stored by such a run share a content hash.
Across runs the invariant can fail (see the counterexample), because the
seen-set is seeded from an existing file only when that file's own commit
is reached in the iteration. -/
theorem single_run_from_empty_store_hashes_nodup (cs : List Commit) :
    ((download_historical_models_data cs []).store.map FileRec.hash).Nodup :=
  (runFrom_hash_inv cs { store := [], seen := [], downloads := [], newFiles := [] }
    (by simp) (by simp)).1

/-- Counterexample to C8 as stated: with a snapshot of content hash 5
already on disk (stored for commit name 10 by an earlier run), a run that
first processes a NEW commit whose file has the same content (hash 5)
stores it again — the store ends with two snapshots sharing content hash
5, because the existing file's hash is seeded into the seen-set only when
its own commit is reached later. -/
theorem duplicate_content_hash_across_runs :
    (download_historical_models_data [exNewDupCommit, exStoredCommit] [⟨10, 5⟩]).store =
      [⟨10, 5⟩, ⟨20, 5⟩] ∧
      ¬ ((download_historical_models_data [exNewDupCommit, exStoredCommit] [⟨10, 5⟩]).store.map
          FileRec.hash).Nodup := by
  constructor
  · decide
  · decide

/-! ### C9: idempotence of the ingestor. -/

theorem lookupFile_eq_none_iff (l : List FileRec) (n : Nat) :
    lookupFile l n = none ↔ ∀ f ∈ l, f.name ≠ n := by
  simp [lookupFile, List.find?_eq_none]

theorem lookupFile_append_some (l1 l2 : List FileRec) (n : Nat) (f : FileRec)
    (h : lookupFile l1 n = some f) : lookupFile (l1 ++ l2) n = some f := by
  induction l1 with
  | nil => simp [lookupFile] at h
  | cons a l ih =>
    by_cases ha : a.name = n
    · simp only [lookupFile, List.find?, List.cons_append] at h ⊢
      simp only [ha, beq_self_eq_true] at h ⊢
      exact h
    · simp only [lookupFile, List.find?, List.cons_append] at h ⊢
      rw [show (a.name == n) = false by simpa using ha] at h ⊢
      exact ih h

theorem lookupFile_append_cons (l1 ext : List FileRec) (x : FileRec) (n : Nat)
    (h1 : lookupFile l1 n = none) (hx : x.name = n) :
    lookupFile (l1 ++ x :: ext) n = some x := by
  induction l1 with
  | nil =>
    simp only [List.nil_append, lookupFile, List.find?]
    rw [show (x.name == n) = true by simpa using hx]
  | cons a l ih =>
    have ha : a.name ≠ n := by
      rcases (lookupFile_eq_none_iff (a :: l) n).mp h1 a (List.mem_cons_self a l) with h
      exact h
    have h1' : lookupFile l n = none := by
      rw [lookupFile_eq_none_iff]
      intro f hf
      exact (lookupFile_eq_none_iff (a :: l) n).mp h1 f (List.mem_cons_of_mem a hf)
    simp only [lookupFile, List.find?, List.cons_append]
    rw [show (a.name == n) = false by simpa using ha]
    exact ih h1'

/-- The candidate loop only appends to the store, and every appended file
is named by one of the candidates. -/
theorem tryCandidates_store_shape (L : List (Nat × Option Nat)) (s : IngestState) :
    ∃ e, (tryCandidates L s).store = s.store ++ e ∧
      ∀ f ∈ e, f.name ∈ L.map Prod.fst := by
  induction L generalizing s with
  | nil => exact ⟨[], by simp [tryCandidates], by simp⟩
  | cons p rest ih =>
    rcases p with ⟨n, h?⟩
    simp only [tryCandidates]
    cases hl : lookupFile s.store n with
    | some f => exact ⟨[], by simp, by simp⟩
    | none =>
      cases h? with
      | none =>
        rcases ih s with ⟨e, he, hn⟩
        refine ⟨e, he, fun f hf => ?_⟩
        simp only [List.map_cons]
        exact List.mem_cons_of_mem _ (hn f hf)
      | some h =>
        by_cases hs : h ∈ s.seen
        · exact ⟨[], by simp [hs], by simp⟩
        · refine ⟨[FileRec.mk n h], by simp [hs], ?_⟩
          intro f hf
          simp only [List.mem_singleton] at hf
          subst hf
          simp

theorem runFrom_cons (c : Commit) (cs : List Commit) (s : IngestState) :
    runFrom (c :: cs) s = runFrom cs (processCommit s c) := rfl

/-- A run only appends to the store, and every appended file is named by
one of the commits. -/
theorem runFrom_store_shape (cs : List Commit) (s : IngestState) :
    ∃ e, (runFrom cs s).store = s.store ++ e ∧ ∀ f ∈ e, f.name ∈ commitNames cs := by
  induction cs generalizing s with
  | nil => exact ⟨[], by simp [runFrom], by simp⟩
  | cons c rest ih =>
    rcases tryCandidates_store_shape c.candidates s with ⟨e1, he1, hn1⟩
    rcases ih (processCommit s c) with ⟨e2, he2, hn2⟩
    refine ⟨e1 ++ e2, ?_, ?_⟩
    · rw [runFrom_cons, he2]
      show (tryCandidates c.candidates s).store ++ e2 = s.store ++ (e1 ++ e2)
      rw [he1, List.append_assoc]
    · intro f hf
      have hnames : commitNames (c :: rest) = c.parquetName :: c.csvName :: commitNames rest := by
        simp [commitNames, Commit.candidates]
      rcases List.mem_append.mp hf with hf | hf
      · have hm := hn1 f hf
        have h2 : f.name = c.parquetName ∨ f.name = c.csvName := by
          simpa [Commit.candidates] using hm
        rw [hnames]
        rcases h2 with h | h
        · exact h ▸ List.mem_cons_self _ _
        · exact h ▸ List.mem_cons_of_mem _ (List.mem_cons_self _ _)
      · rw [hnames]
        exact List.mem_cons_of_mem _ (List.mem_cons_of_mem _ (hn2 f hf))

/-- If the candidate loop did not grow the store, it did not record a new
snapshot either. -/
theorem tryCandidates_newFiles_eq (L : List (Nat × Option Nat)) (s : IngestState)
    (h : (tryCandidates L s).store = s.store) :
    (tryCandidates L s).newFiles = s.newFiles := by
  induction L generalizing s with
  | nil => rfl
  | cons p rest ih =>
    rcases p with ⟨n, h?⟩
    simp only [tryCandidates] at h ⊢
    cases hl : lookupFile s.store n with
    | some f => rfl
    | none =>
      rw [hl] at h
      cases h? with
      | none => exact ih s h
      | some hh =>
        by_cases hs : hh ∈ s.seen
        · simp [hs]
        · simp only [hs, if_neg, ite_false] at h
          have := congrArg List.length h
          simp at this

theorem runFrom_newFiles_eq (cs : List Commit) (s : IngestState)
    (h : (runFrom cs s).store = s.store) :
    (runFrom cs s).newFiles = s.newFiles := by
  induction cs generalizing s with
  | nil => rfl
  | cons c rest ih =>
    rcases tryCandidates_store_shape c.candidates s with ⟨e1, he1, _⟩
    rcases runFrom_store_shape rest (processCommit s c) with ⟨e2, he2, _⟩
    rw [runFrom_cons] at h ⊢
    rw [he2] at h
    have he1' : (processCommit s c).store = s.store ++ e1 := he1
    rw [he1', List.append_assoc] at h
    have hnil : e1 ++ e2 = [] := by
      have := congrArg List.length h
      simp only [List.length_append] at this
      have hlen : (e1 ++ e2).length = 0 := by
        simp only [List.length_append]
        omega
      exact List.eq_nil_of_length_eq_zero hlen
    rcases List.append_eq_nil.mp hnil with ⟨h1, h2⟩
    subst h1
    subst h2
    have hs1 : (processCommit s c).store = s.store := by rw [he1']; simp
    have hr : (runFrom rest (processCommit s c)).store = (processCommit s c).store := by
      rw [he2, hs1]
      simp
    rw [ih (processCommit s c) hr]
    exact tryCandidates_newFiles_eq c.candidates s hs1

/-- Two-run simulation for one candidate list: if the second run's store is
the first run's final store (this commit's effect plus later extensions
whose names avoid this commit's candidates), the second run stores
nothing, its seen-set dominates the first run's, and it downloads only
files absent from its store. -/
theorem trySim (L : List (Nat × Option Nat)) (s1 s2 : IngestState) (ext : List FileRec)
    (hstore : s2.store = (tryCandidates L s1).store ++ ext)
    (hext : ∀ f ∈ ext, f.name ∉ L.map Prod.fst)
    (hnd : (L.map Prod.fst).Nodup)
    (hsub : s1.seen ⊆ s2.seen) :
    (tryCandidates L s2).store = s2.store ∧
      (tryCandidates L s1).seen ⊆ (tryCandidates L s2).seen ∧
      ∀ n ∈ (tryCandidates L s2).downloads, n ∈ s2.downloads ∨ lookupFile s2.store n = none := by
  induction L generalizing s1 s2 ext with
  | nil => exact ⟨rfl, hsub, fun n hn => Or.inl hn⟩
  | cons p rest ih =>
    rcases p with ⟨n, h?⟩
    have hndn : ¬ n ∈ rest.map Prod.fst := (List.nodup_cons.mp (by simpa using hnd)).1
    cases hl1 : lookupFile s1.store n with
    | some f =>
      have hpost1 : tryCandidates ((n, h?) :: rest) s1 = { s1 with seen := f.hash :: s1.seen } := by
        simp [tryCandidates, hl1]
      have hs2store : s2.store = s1.store ++ ext := by
        rw [hstore, hpost1]
      have hl2 : lookupFile s2.store n = some f := by
        rw [hs2store]
        exact lookupFile_append_some _ _ _ _ hl1
      have hpost2 : tryCandidates ((n, h?) :: rest) s2 = { s2 with seen := f.hash :: s2.seen } := by
        simp [tryCandidates, hl2]
      rw [hpost1, hpost2]
      exact ⟨rfl, List.cons_subset_cons _ hsub, fun m hm => Or.inl hm⟩
    | none =>
      cases h? with
      | none =>
        have hpost1 : tryCandidates ((n, none) :: rest) s1 = tryCandidates rest s1 := by
          simp [tryCandidates, hl1]
        rcases tryCandidates_store_shape rest s1 with ⟨e, he, hne⟩
        have hl2 : lookupFile s2.store n = none := by
          rw [lookupFile_eq_none_iff]
          intro f hf
          rw [hstore, hpost1, he] at hf
          rcases List.mem_append.mp hf with hf | hf
          · rcases List.mem_append.mp hf with hf | hf
            · exact (lookupFile_eq_none_iff s1.store n).mp hl1 f hf
            · intro heq
              have hmem : f.name ∈ rest.map Prod.fst := hne f hf
              rw [heq] at hmem
              exact hndn hmem
          · intro heq
            exact hext f hf (by simp [heq])
        have hpost2 : tryCandidates ((n, none) :: rest) s2 = tryCandidates rest s2 := by
          simp [tryCandidates, hl2]
        rw [hpost1, hpost2]
        have hstore' : s2.store = (tryCandidates rest s1).store ++ ext := by
          rw [hstore, hpost1]
        have hext' : ∀ f ∈ ext, f.name ∉ rest.map Prod.fst := by
          intro f hf hmem
          exact hext f hf (by simp [hmem])
        exact ih s1 s2 ext hstore' hext' (List.nodup_cons.mp (by simpa using hnd)).2 hsub
      | some h =>
        by_cases hs1seen : h ∈ s1.seen
        · have hpost1 : tryCandidates ((n, some h) :: rest) s1 =
              { s1 with downloads := n :: s1.downloads } := by
            simp [tryCandidates, hl1, hs1seen]
          have hs2store : s2.store = s1.store ++ ext := by
            rw [hstore, hpost1]
          have hl2 : lookupFile s2.store n = none := by
            rw [lookupFile_eq_none_iff]
            intro f hf
            rw [hs2store] at hf
            rcases List.mem_append.mp hf with hf | hf
            · exact (lookupFile_eq_none_iff s1.store n).mp hl1 f hf
            · intro heq
              exact hext f hf (by simp [heq])
          have hs2seen : h ∈ s2.seen := hsub hs1seen
          have hpost2 : tryCandidates ((n, some h) :: rest) s2 =
              { s2 with downloads := n :: s2.downloads } := by
            simp [tryCandidates, hl2, hs2seen]
          rw [hpost1, hpost2]
          refine ⟨rfl, hsub, ?_⟩
          intro m hm
          rcases List.mem_cons.mp hm with rfl | hm
          · exact Or.inr hl2
          · exact Or.inl hm
        · have hpost1 : tryCandidates ((n, some h) :: rest) s1 =
              { s1 with
                store := s1.store ++ [FileRec.mk n h],
                seen := h :: s1.seen,
                downloads := n :: s1.downloads,
                newFiles := n :: s1.newFiles } := by
            simp [tryCandidates, hl1, hs1seen]
          have hs2store : s2.store = s1.store ++ FileRec.mk n h :: ext := by
            rw [hstore, hpost1]
            simp
          have hl2 : lookupFile s2.store n = some (FileRec.mk n h) := by
            rw [hs2store]
            exact lookupFile_append_cons _ _ _ _ hl1 rfl
          have hpost2 : tryCandidates ((n, some h) :: rest) s2 =
              { s2 with seen := h :: s2.seen } := by
            simp [tryCandidates, hl2]
          rw [hpost1, hpost2]
          exact ⟨rfl, List.cons_subset_cons _ hsub, fun m hm => Or.inl hm⟩

/-- Two-run simulation over a commit list with pairwise-distinct output
filenames. -/
theorem runSim (cs : List Commit) (s1 s2 : IngestState)
    (hstore : s2.store = (runFrom cs s1).store)
    (hsub : s1.seen ⊆ s2.seen)
    (hnd : (commitNames cs).Nodup) :
    (runFrom cs s2).store = s2.store ∧
      (runFrom cs s1).seen ⊆ (runFrom cs s2).seen ∧
      ∀ n ∈ (runFrom cs s2).downloads, n ∈ s2.downloads ∨ lookupFile s2.store n = none := by
  induction cs generalizing s1 s2 with
  | nil => exact ⟨rfl, hsub, fun n hn => Or.inl hn⟩
  | cons c rest ih =>
    have hnames : commitNames (c :: rest) = c.parquetName :: c.csvName :: commitNames rest := by
      simp [commitNames, Commit.candidates]
    rw [hnames] at hnd
    have hndP : c.parquetName ∉ commitNames rest := by
      have h1 := (List.nodup_cons.mp hnd).1
      intro hmem
      exact h1 (List.mem_cons_of_mem _ hmem)
    have hndC : c.csvName ∉ commitNames rest := ((List.nodup_cons.mp hnd).2 |> List.nodup_cons.mp).1
    have hpc : c.parquetName ≠ c.csvName := by
      have h1 := (List.nodup_cons.mp hnd).1
      intro heq
      exact h1 (heq ▸ List.mem_cons_self _ _)
    rcases runFrom_store_shape rest (processCommit s1 c) with ⟨e2, he2, hn2⟩
    have hstore1 : s2.store = (tryCandidates c.candidates s1).store ++ e2 := by
      rw [hstore, runFrom_cons, he2]
      rfl
    have hext : ∀ f ∈ e2, f.name ∉ c.candidates.map Prod.fst := by
      intro f hf hmem
      have hfn : f.name ∈ commitNames rest := hn2 f hf
      have : f.name = c.parquetName ∨ f.name = c.csvName := by
        simpa [Commit.candidates] using hmem
      rcases this with h | h
      · exact hndP (h ▸ hfn)
      · exact hndC (h ▸ hfn)
    have hndL : (c.candidates.map Prod.fst).Nodup := by
      simp [Commit.candidates, hpc]
    obtain ⟨hst2, hsub2, hdl2⟩ := trySim c.candidates s1 s2 e2 hstore1 hext hndL hsub
    have hstore' : (processCommit s2 c).store = (runFrom rest (processCommit s1 c)).store := by
      show (tryCandidates c.candidates s2).store = _
      rw [hst2, hstore, runFrom_cons]
    obtain ⟨ihst, ihsub, ihdl⟩ := ih (processCommit s1 c) (processCommit s2 c) hstore' hsub2
      ((List.nodup_cons.mp ((List.nodup_cons.mp hnd).2)).2)
    refine ⟨?_, ?_, ?_⟩
    · rw [runFrom_cons, ihst]
      exact hst2
    · rw [runFrom_cons, runFrom_cons]
      exact ihsub
    · intro n hn
      rw [runFrom_cons] at hn
      rcases ihdl n hn with hmem | hnone
      · rcases hdl2 n hmem with hmem' | hnone'
        · exact Or.inl hmem'
        · exact Or.inr hnone'
      · have : lookupFile s2.store n = none := by
          show lookupFile s2.store n = none
          rw [show s2.store = (processCommit s2 c).store from hst2.symm]
          exact hnone
        exact Or.inr this

/-- C9: the ingestor is idempotent. Re-running it with the same commit
history (whose output filenames are pairwise distinct) against the store
populated by the first run creates zero new snapshot files, leaves the
store unchanged, and every download of the second run is of a filename not
present on disk (presence is checked by filename before downloading). -/
theorem ingestor_second_run_is_noop (cs : List Commit) (store0 : List FileRec)
    (hnd : (commitNames cs).Nodup) :
    (download_historical_models_data cs
        (download_historical_models_data cs store0).store).newFiles = [] ∧
      (download_historical_models_data cs
          (download_historical_models_data cs store0).store).store =
        (download_historical_models_data cs store0).store ∧
      ∀ n ∈ (download_historical_models_data cs
          (download_historical_models_data cs store0).store).downloads,
        lookupFile (download_historical_models_data cs store0).store n = none := by
  obtain ⟨h1, _h2, h3⟩ := runSim cs
    { store := store0, seen := [], downloads := [], newFiles := [] }
    { store := (download_historical_models_data cs store0).store, seen := [],
      downloads := [], newFiles := [] }
    rfl (by simp) hnd
  refine ⟨?_, h1, ?_⟩
  · exact runFrom_newFiles_eq cs _ h1
  · intro n hn
    rcases h3 n hn with hmem | hnone
    · simp at hmem
    · exact hnone

/-- Witness for C9 at a concrete commit history containing a format
fallback and a duplicate-content commit. -/
theorem ingestor_second_run_is_noop_witness :
    (commitNames exHistory).Nodup ∧
      ((download_historical_models_data exHistory
          (download_historical_models_data exHistory []).store).newFiles = [] ∧
        (download_historical_models_data exHistory
            (download_historical_models_data exHistory []).store).store =
          (download_historical_models_data exHistory []).store ∧
        ∀ n ∈ (download_historical_models_data exHistory
            (download_historical_models_data exHistory []).store).downloads,
          lookupFile (download_historical_models_data exHistory []).store n = none) :=
  ⟨by decide, ingestor_second_run_is_noop exHistory [] (by decide)⟩

/-! ### The LAG window: structure of one sorted id-partition. -/

theorem rowLe_trans (a b c : LoadedRow) (h1 : rowLe a b = true) (h2 : rowLe b c = true) :
    rowLe a c = true := by
  simp only [rowLe, decide_eq_true_eq] at h1 h2 ⊢
  omega

theorem rowLe_total (a b : LoadedRow) (h : rowLe a b = false) : rowLe b a = true := by
  simp only [rowLe, decide_eq_false_iff_not, decide_eq_true_eq] at h ⊢
  omega

theorem withLagAux_length (p : Option Int) (l : List LoadedRow) :
    (withLagAux p l).length = l.length := by
  induction l generalizing p with
  | nil => rfl
  | cons r rest ih => simp [withLagAux, ih]

theorem mem_withLagAux_source (p : Option Int) (l : List LoadedRow) (r : DeltaRow)
    (h : r ∈ withLagAux p l) :
    ∃ s ∈ l, r.id = s.id ∧ r.snapshot_date = s.snapshot_date ∧
      r.downloadsAllTime = s.downloadsAllTime := by
  induction l generalizing p with
  | nil => simp [withLagAux] at h
  | cons a rest ih =>
    simp only [withLagAux, List.mem_cons] at h
    rcases h with rfl | h
    · exact ⟨a, List.mem_cons_self a rest, rfl, rfl, rfl⟩
    · rcases ih (some a.downloadsAllTime) h with ⟨s, hs, h1, h2, h3⟩
      exact ⟨s, List.mem_cons_of_mem a hs, h1, h2, h3⟩

theorem withLagAux_get_zero (p : Option Int) (l : List LoadedRow) (h : 0 < l.length) :
    (withLagAux p l).get ⟨0, by rw [withLagAux_length]; exact h⟩ =
      mkDelta (l.get ⟨0, h⟩) (p.map (fun q => (l.get ⟨0, h⟩).downloadsAllTime - q)) := by
  cases l with
  | nil => simp at h
  | cons a rest => rfl

theorem withLagAux_get_succ (l : List LoadedRow) (p : Option Int) (j : Nat)
    (hj : j + 1 < l.length) :
    (withLagAux p l).get ⟨j + 1, by rw [withLagAux_length]; exact hj⟩ =
      mkDelta (l.get ⟨j + 1, hj⟩)
        (some ((l.get ⟨j + 1, hj⟩).downloadsAllTime -
          (l.get ⟨j, Nat.lt_of_succ_lt hj⟩).downloadsAllTime)) := by
  induction l generalizing p j with
  | nil => simp at hj
  | cons a rest ih =>
    cases j with
    | zero =>
      have h0 : 0 < rest.length := by
        simp only [List.length_cons] at hj
        omega
      have := withLagAux_get_zero (some a.downloadsAllTime) rest h0
      simpa [withLagAux] using this
    | succ k =>
      have hk : k + 1 < rest.length := by
        simp only [List.length_cons] at hj
        omega
      have := ih (some a.downloadsAllTime) k hk
      simpa [withLagAux] using this

/-- The delta table is the concatenation of per-id LAG partitions. -/
theorem mem_daily_iff (rows : List LoadedRow) (r : DeltaRow) :
    r ∈ daily_model_downloads rows ↔
      ∃ i ∈ distinctIds rows, r ∈ withLagAux none (idGroup rows i) := by
  simp [daily_model_downloads]

theorem id_of_mem_group (rows : List LoadedRow) (i : String) (r : DeltaRow)
    (h : r ∈ withLagAux none (idGroup rows i)) : r.id = i := by
  rcases mem_withLagAux_source none _ r h with ⟨s, hs, h1, _, _⟩
  rw [idGroup, mem_sortBy] at hs
  have := (List.mem_filter.mp hs).2
  simp only [decide_eq_true_eq] at this
  rw [h1, this]

theorem mem_group_of_row (rows : List LoadedRow) (i : String) (s : LoadedRow)
    (hs : s ∈ rows) (hid : s.id = i) : s ∈ idGroup rows i := by
  rw [idGroup, mem_sortBy]
  exact List.mem_filter.mpr ⟨hs, by simp [hid]⟩

theorem mem_rows_of_mem_group (rows : List LoadedRow) (i : String) (s : LoadedRow)
    (hs : s ∈ idGroup rows i) : s ∈ rows ∧ s.id = i := by
  rw [idGroup, mem_sortBy] at hs
  rcases List.mem_filter.mp hs with ⟨h1, h2⟩
  simp only [decide_eq_true_eq] at h2
  exact ⟨h1, h2⟩

theorem group_sorted (rows : List LoadedRow) (i : String) :
    List.Pairwise (fun a b : LoadedRow => a.snapshot_date ≤ b.snapshot_date)
      (idGroup rows i) := by
  rw [idGroup]
  refine List.Pairwise.imp ?_ (pairwise_sortBy rowLe rowLe_trans rowLe_total (rowsFor rows i))
  intro a b hab
  simpa [rowLe] using hab

theorem group_dates_nodup (rows : List LoadedRow) (i : String)
    (h : ((rowsFor rows i).map (fun r => r.snapshot_date)).Nodup) :
    ((idGroup rows i).map (fun r => r.snapshot_date)).Nodup :=
  (((perm_sortBy rowLe (rowsFor rows i)).map (fun r => r.snapshot_date)).nodup_iff).mpr h

/-- Within a partition whose dates are distinct, positions are determined
by dates. -/
theorem get_date_inj (g : List LoadedRow)
    (hdnd : (g.map (fun x => x.snapshot_date)).Nodup)
    (a b : Nat) (ha : a < g.length) (hb : b < g.length)
    (heq : (g.get ⟨a, ha⟩).snapshot_date = (g.get ⟨b, hb⟩).snapshot_date) : a = b := by
  have ham : a < (g.map (fun x => x.snapshot_date)).length := by
    rw [List.length_map]
    exact ha
  have hbm : b < (g.map (fun x => x.snapshot_date)).length := by
    rw [List.length_map]
    exact hb
  have hEq : (g.map (fun x => x.snapshot_date))[a] = (g.map (fun x => x.snapshot_date))[b] := by
    rw [List.getElem_map, List.getElem_map]
    exact heq
  exact (@List.Nodup.getElem_inj_iff _ _ hdnd a ham b hbm).mp hEq

/-- Adjacency in the delta table: if an entity is observed at `d_prev` with
counter `v_prev`, is observed at `d > d_prev`, and has no observation
strictly between the two, then the delta-table record at `d` carries
exactly `counter(d) - v_prev`. -/
theorem deltaTable_adjacent (rows : List LoadedRow) (entity : String) (d_prev d : Nat)
    (v_prev : Int)
    (hprev : ∃ rp ∈ rows, rp.id = entity ∧ rp.snapshot_date = d_prev ∧
      rp.downloadsAllTime = v_prev)
    (hlt : d_prev < d)
    (hgap : ∀ q ∈ rows, q.id = entity → ¬(d_prev < q.snapshot_date ∧ q.snapshot_date < d))
    (hnd : ((rowsFor rows entity).map (fun x => x.snapshot_date)).Nodup)
    (r : DeltaRow) (hr : r ∈ daily_model_downloads rows) (hid : r.id = entity)
    (hd : r.snapshot_date = d) :
    r.daily_downloads = some (r.downloadsAllTime - v_prev) := by
  obtain ⟨i, hi, hrg⟩ := (mem_daily_iff rows r).mp hr
  have hie : i = entity := by rw [← id_of_mem_group rows i r hrg, hid]
  subst hie
  obtain ⟨⟨k, hk⟩, hkr⟩ := List.mem_iff_get.mp hrg
  have hkg : k < (idGroup rows i).length := by
    rw [← withLagAux_length none (idGroup rows i)]
    exact hk
  obtain ⟨rp, hrpm, hrpid, hrpd, hrpv⟩ := hprev
  obtain ⟨⟨m, hm⟩, hmg⟩ := List.mem_iff_get.mp (mem_group_of_row rows i rp hrpm hrpid)
  have hsorted := List.pairwise_iff_get.mp (group_sorted rows i)
  have hdnd := group_dates_nodup rows i hnd
  cases k with
  | zero =>
    exfalso
    have hz : r = mkDelta ((idGroup rows i).get ⟨0, hkg⟩) none := by
      rw [← hkr]
      have := withLagAux_get_zero none (idGroup rows i) hkg
      simpa using this
    have hrdate : r.snapshot_date = ((idGroup rows i).get ⟨0, hkg⟩).snapshot_date := by
      rw [hz]
      rfl
    cases Nat.eq_zero_or_pos m with
    | inl hm0 =>
      subst hm0
      have : ((idGroup rows i).get ⟨0, hkg⟩) = rp := hmg
      rw [this, hrpd] at hrdate
      rw [hd] at hrdate
      omega
    | inr hmpos =>
      have hle := hsorted ⟨0, hkg⟩ ⟨m, hm⟩ (by exact hmpos)
      rw [hmg, hrpd] at hle
      rw [← hrdate, hd] at hle
      omega
  | succ j =>
    have hj1 : j + 1 < (idGroup rows i).length := hkg
    have hjlt : j < (idGroup rows i).length := Nat.lt_of_succ_lt hj1
    have hz : r = mkDelta ((idGroup rows i).get ⟨j + 1, hj1⟩)
        (some (((idGroup rows i).get ⟨j + 1, hj1⟩).downloadsAllTime -
          ((idGroup rows i).get ⟨j, hjlt⟩).downloadsAllTime)) := by
      rw [← hkr]
      exact withLagAux_get_succ (idGroup rows i) none j hj1
    have hrdaily : r.daily_downloads =
        some (((idGroup rows i).get ⟨j + 1, hj1⟩).downloadsAllTime -
          ((idGroup rows i).get ⟨j, hjlt⟩).downloadsAllTime) := by
      rw [hz]
      rfl
    have hrdat : r.downloadsAllTime = ((idGroup rows i).get ⟨j + 1, hj1⟩).downloadsAllTime := by
      rw [hz]
      rfl
    have hrdate : r.snapshot_date = ((idGroup rows i).get ⟨j + 1, hj1⟩).snapshot_date := by
      rw [hz]
      rfl
    have h1 : ((idGroup rows i).get ⟨j, hjlt⟩).snapshot_date ≤ d := by
      have hle := hsorted ⟨j, hjlt⟩ ⟨j + 1, hj1⟩ (by exact Nat.lt_succ_self j)
      rw [← hrdate, hd] at hle
      exact hle
    have h2 : ((idGroup rows i).get ⟨j, hjlt⟩).snapshot_date ≠ d := by
      intro heq
      have : j = j + 1 := by
        refine get_date_inj (idGroup rows i) hdnd j (j + 1) hjlt hj1 ?_
        rw [heq, ← hrdate, hd]
      omega
    obtain ⟨hgj_rows, hgj_id⟩ := mem_rows_of_mem_group rows i
      ((idGroup rows i).get ⟨j, hjlt⟩) (List.get_mem _ _ hjlt)
    have h4 : ((idGroup rows i).get ⟨j, hjlt⟩).snapshot_date ≤ d_prev := by
      by_contra hcon
      push_neg at hcon
      exact hgap _ hgj_rows hgj_id ⟨hcon, lt_of_le_of_ne h1 h2⟩
    have hm1 : m < j + 1 := by
      by_contra hcon
      push_neg at hcon
      rcases Nat.eq_or_lt_of_le hcon with heq | hlt2
      · have : ((idGroup rows i).get ⟨j + 1, hj1⟩).snapshot_date = d_prev := by
          have hcast : ((idGroup rows i).get ⟨j + 1, hj1⟩) = (idGroup rows i).get ⟨m, hm⟩ := by
            congr 1
            exact Fin.mk_eq_mk.mpr heq
          rw [hcast, hmg, hrpd]
        rw [← hrdate, hd] at this
        omega
      · have hle := hsorted ⟨j + 1, hj1⟩ ⟨m, hm⟩ (by exact hlt2)
        rw [hmg, hrpd, ← hrdate, hd] at hle
        omega
    have hmj : m = j := by
      rcases Nat.eq_or_lt_of_le (Nat.lt_succ_iff.mp hm1) with heq | hlt2
      · exact heq
      · exfalso
        have hle := hsorted ⟨m, hm⟩ ⟨j, hjlt⟩ (by exact hlt2)
        rw [hmg, hrpd] at hle
        have heq2 : ((idGroup rows i).get ⟨m, hm⟩).snapshot_date =
            ((idGroup rows i).get ⟨j, hjlt⟩).snapshot_date := by
          rw [hmg, hrpd]
          omega
        exact absurd (get_date_inj (idGroup rows i) hdnd m j hm hjlt heq2) (Nat.ne_of_lt hlt2)
    have hgjrp : (idGroup rows i).get ⟨j, hjlt⟩ = rp := by
      rw [← hmg]
      congr 1
      exact Fin.mk_eq_mk.mpr hmj.symm
    rw [hrdaily, hrdat, hgjrp, hrpv]

theorem withLagAux_get_date (p : Option Int) (l : List LoadedRow) (j : Nat) (hj : j < l.length) :
    ((withLagAux p l).get ⟨j, by rw [withLagAux_length]; exact hj⟩).snapshot_date =
      (l.get ⟨j, hj⟩).snapshot_date := by
  cases j with
  | zero =>
    rw [withLagAux_get_zero p l hj]
    rfl
  | succ j' =>
    rw [withLagAux_get_succ l p j' hj]
    rfl

/-! ### C1 (amended): the DuckDB first-observation delta is null. -/

/-- C1 (amended): in the DuckDB delta engine, the delta record of the
entity's first observed snapshot date (its minimal date, the dates of the
entity being distinct) is null, wherever that date falls in the corpus's
overall range. (In the pandas/PostgreSQL engines the claim fails — see
the counterexample.) -/
theorem duckdb_first_observed_delta_null (rows : List LoadedRow) (r : DeltaRow)
    (hr : r ∈ daily_model_downloads rows)
    (hmin : ∀ q ∈ daily_model_downloads rows, q.id = r.id → r.snapshot_date ≤ q.snapshot_date)
    (hnd : ((rowsFor rows r.id).map (fun x => x.snapshot_date)).Nodup) :
    r.daily_downloads = none := by
  obtain ⟨i, hi, hrg⟩ := (mem_daily_iff rows r).mp hr
  have hie : r.id = i := id_of_mem_group rows i r hrg
  obtain ⟨⟨k, hk⟩, hkr⟩ := List.mem_iff_get.mp hrg
  have hkg : k < (idGroup rows i).length := by
    rw [← withLagAux_length none (idGroup rows i)]
    exact hk
  have hdnd := group_dates_nodup rows i (hie ▸ hnd)
  cases k with
  | zero =>
    have hz : r = mkDelta ((idGroup rows i).get ⟨0, hkg⟩) none := by
      rw [← hkr]
      simpa using withLagAux_get_zero none (idGroup rows i) hkg
    rw [hz]
    rfl
  | succ j =>
    exfalso
    have hj1 : j + 1 < (idGroup rows i).length := hkg
    have hjlt : j < (idGroup rows i).length := Nat.lt_of_succ_lt hj1
    have hrdate : r.snapshot_date = ((idGroup rows i).get ⟨j + 1, hj1⟩).snapshot_date := by
      rw [← hkr, withLagAux_get_succ (idGroup rows i) none j hj1]
      rfl
    have hjw : j < (withLagAux none (idGroup rows i)).length := by
      rw [withLagAux_length]
      exact hjlt
    have hqmem : (withLagAux none (idGroup rows i)).get ⟨j, hjw⟩ ∈ daily_model_downloads rows := by
      rw [mem_daily_iff]
      exact ⟨i, hi, List.get_mem _ _ hjw⟩
    have hqid : ((withLagAux none (idGroup rows i)).get ⟨j, hjw⟩).id = r.id := by
      rw [id_of_mem_group rows i _ (List.get_mem _ _ hjw), hie]
    have hqdate : ((withLagAux none (idGroup rows i)).get ⟨j, hjw⟩).snapshot_date =
        ((idGroup rows i).get ⟨j, hjlt⟩).snapshot_date := withLagAux_get_date none _ j hjlt
    have hminq := hmin _ hqmem hqid
    have hsorted := List.pairwise_iff_get.mp (group_sorted rows i)
    have hle := hsorted ⟨j, hjlt⟩ ⟨j + 1, hj1⟩ (by exact Nat.lt_succ_self j)
    have heq : ((idGroup rows i).get ⟨j, hjlt⟩).snapshot_date =
        ((idGroup rows i).get ⟨j + 1, hj1⟩).snapshot_date := by
      rw [hqdate] at hminq
      rw [hrdate] at hminq
      omega
    have := get_date_inj _ hdnd j (j + 1) hjlt hj1 heq
    omega

/-- Witness for C1's amended theorem: in a two-snapshot corpus the record
of the earlier date has a null delta. -/
theorem duckdb_first_observed_delta_null_witness :
    ((⟨20250101, "acme/model-a", "acme", 100, none⟩ : DeltaRow) ∈
        daily_model_downloads
          [⟨20250101, "acme/model-a", "acme", 100⟩, ⟨20250103, "acme/model-a", "acme", 130⟩] ∧
      (∀ q ∈ daily_model_downloads
          [⟨20250101, "acme/model-a", "acme", 100⟩, ⟨20250103, "acme/model-a", "acme", 130⟩],
        q.id = (⟨20250101, "acme/model-a", "acme", 100, none⟩ : DeltaRow).id →
          (⟨20250101, "acme/model-a", "acme", 100, none⟩ : DeltaRow).snapshot_date ≤
            q.snapshot_date) ∧
      ((rowsFor [⟨20250101, "acme/model-a", "acme", 100⟩, ⟨20250103, "acme/model-a", "acme", 130⟩]
          (⟨20250101, "acme/model-a", "acme", 100, none⟩ : DeltaRow).id).map
        (fun x => x.snapshot_date)).Nodup) ∧
      (⟨20250101, "acme/model-a", "acme", 100, none⟩ : DeltaRow).daily_downloads = none :=
  ⟨⟨by decide, by decide, by decide⟩,
    duckdb_first_observed_delta_null
      [⟨20250101, "acme/model-a", "acme", 100⟩, ⟨20250103, "acme/model-a", "acme", 130⟩]
      ⟨20250101, "acme/model-a", "acme", 100, none⟩ (by decide) (by decide) (by decide)⟩

/-! ### C3: the delta is taken against the previous observed date. -/

/-- C3: for an entity observed at `d_prev` (with counter `v_prev`) and at
`d > d_prev`, with no observed date strictly between the two and distinct
observed dates, the DuckDB delta record at `d` equals the counter at `d`
minus the counter at `d_prev` — the immediately preceding OBSERVED date,
not the preceding calendar day, calendar gaps notwithstanding. -/
theorem delta_equals_diff_from_previous_observed_date (rows : List LoadedRow)
    (entity : String) (d_prev d : Nat) (v_prev : Int)
    (hprev : ∃ rp ∈ rows, rp.id = entity ∧ rp.snapshot_date = d_prev ∧
      rp.downloadsAllTime = v_prev)
    (hlt : d_prev < d)
    (hgap : ∀ q ∈ rows, q.id = entity → ¬(d_prev < q.snapshot_date ∧ q.snapshot_date < d))
    (hnd : ((rowsFor rows entity).map (fun x => x.snapshot_date)).Nodup)
    (r : DeltaRow) (hr : r ∈ daily_model_downloads rows) (hid : r.id = entity)
    (hd : r.snapshot_date = d) :
    r.daily_downloads = some (r.downloadsAllTime - v_prev) :=
  deltaTable_adjacent rows entity d_prev d v_prev hprev hlt hgap hnd r hr hid hd

/-- Witness for C3 at a corpus with a calendar gap: the record for
2025-01-03 carries 130 - 100, the difference against the previous
OBSERVED date 2025-01-01. -/
theorem delta_equals_diff_from_previous_observed_date_witness :
    ((∃ rp ∈ exGapRows, rp.id = "acme/model-a" ∧ rp.snapshot_date = 20250101 ∧
        rp.downloadsAllTime = 100) ∧
      (20250101 : Nat) < 20250103 ∧
      (∀ q ∈ exGapRows, q.id = "acme/model-a" →
        ¬(20250101 < q.snapshot_date ∧ q.snapshot_date < 20250103)) ∧
      ((rowsFor exGapRows "acme/model-a").map (fun x => x.snapshot_date)).Nodup ∧
      (⟨20250103, "acme/model-a", "acme", 130, some 30⟩ : DeltaRow) ∈
        daily_model_downloads exGapRows) ∧
      (⟨20250103, "acme/model-a", "acme", 130, some 30⟩ : DeltaRow).daily_downloads =
        some ((⟨20250103, "acme/model-a", "acme", 130, some 30⟩ : DeltaRow).downloadsAllTime - 100) :=
  ⟨⟨by decide, by decide, by decide, by decide, by decide⟩,
    delta_equals_diff_from_previous_observed_date exGapRows "acme/model-a" 20250101 20250103 100
      (by decide) (by decide) (by decide) (by decide)
      ⟨20250103, "acme/model-a", "acme", 130, some 30⟩ (by decide) (by decide) (by decide)⟩

/-! ### C2 (amended): negative deltas in the DuckDB engine. -/

/-- Every aggregate row's total and average are computed over non-negative
delta values only. -/
theorem agg_sums_valid (dt : List DeltaRow) (g : AggRow)
    (hg : g ∈ author_daily_downloads dt) :
    ∃ vals : List Int, (∀ x ∈ vals, 0 ≤ x) ∧
      g.total_daily_downloads = intSum vals ∧
      g.avg_daily_downloads_per_model = mkRat (intSum vals) vals.length := by
  rw [author_daily_downloads, mem_sortBy] at hg
  obtain ⟨k, hk, hgk⟩ := List.mem_map.mp hg
  subst hgk
  refine ⟨(groupRows dt k).map (fun r => r.daily_downloads.getD 0), ?_, ?_, ?_⟩
  · intro x hx
    obtain ⟨r, hr, hrx⟩ := List.mem_map.mp hx
    have hval : validDelta r.daily_downloads = true := by
      have hr1 : r ∈ validRows dt := (List.mem_filter.mp hr).1
      exact (List.mem_filter.mp hr1).2
    subst hrx
    cases hdd : r.daily_downloads with
    | none =>
      rw [hdd] at hval
      simp [validDelta] at hval
    | some v =>
      rw [hdd] at hval
      simp only [validDelta, decide_eq_true_eq] at hval
      simpa [hdd] using hval
  · rfl
  · rw [List.length_map]
    rfl

/-- C2 (amended): in the DuckDB engine a negative delta is preserved as-is
in the per-entity record (neither an error nor replaced by 0), and the
aggregator's sums and averages range over non-negative delta values only,
so the negative value contributes to neither. (The pandas/PostgreSQL
engines clamp it to 0 instead — see the counterexample.) -/
theorem duckdb_negative_delta_preserved_and_excluded (rows : List LoadedRow)
    (entity : String) (d_prev d : Nat) (v_prev : Int)
    (hprev : ∃ rp ∈ rows, rp.id = entity ∧ rp.snapshot_date = d_prev ∧
      rp.downloadsAllTime = v_prev)
    (hlt : d_prev < d)
    (hgap : ∀ q ∈ rows, q.id = entity → ¬(d_prev < q.snapshot_date ∧ q.snapshot_date < d))
    (hnd : ((rowsFor rows entity).map (fun x => x.snapshot_date)).Nodup)
    (hneg : ∀ rc ∈ rows, rc.id = entity → rc.snapshot_date = d →
      rc.downloadsAllTime < v_prev) :
    (∀ r ∈ daily_model_downloads rows, r.id = entity → r.snapshot_date = d →
        r.daily_downloads = some (r.downloadsAllTime - v_prev) ∧
          r.downloadsAllTime - v_prev < 0) ∧
      ∀ g ∈ author_daily_downloads (daily_model_downloads rows),
        ∃ vals : List Int, (∀ x ∈ vals, 0 ≤ x) ∧
          g.total_daily_downloads = intSum vals ∧
          g.avg_daily_downloads_per_model = mkRat (intSum vals) vals.length := by
  constructor
  · intro r hr hid hd
    refine ⟨deltaTable_adjacent rows entity d_prev d v_prev hprev hlt hgap hnd r hr hid hd, ?_⟩
    obtain ⟨i, hi, hrg⟩ := (mem_daily_iff rows r).mp hr
    obtain ⟨s, hsg, hsid, hsdate, hsdat⟩ := mem_withLagAux_source none _ r hrg
    obtain ⟨hs_rows, hs_id⟩ := mem_rows_of_mem_group rows i s hsg
    have hsent : s.id = entity := by
      rw [← hsid, hid]
    have hsd : s.snapshot_date = d := by
      rw [← hsdate, hd]
    have hlt2 : s.downloadsAllTime < v_prev := hneg s hs_rows hsent hsd
    rw [hsdat]
    omega
  · intro g hg
    exact agg_sums_valid _ g hg

/-- Witness for C2's amended theorem: counter 150 then 130, so the delta
table carries -20 as-is and every aggregate row sums only non-negative
values. -/
theorem duckdb_negative_delta_preserved_and_excluded_witness :
    ((∃ rp ∈ exDropRows, rp.id = "acme/model-a" ∧ rp.snapshot_date = 20250102 ∧
        rp.downloadsAllTime = 150) ∧
      (20250102 : Nat) < 20250103 ∧
      (∀ q ∈ exDropRows, q.id = "acme/model-a" →
        ¬(20250102 < q.snapshot_date ∧ q.snapshot_date < 20250103)) ∧
      ((rowsFor exDropRows "acme/model-a").map (fun x => x.snapshot_date)).Nodup ∧
      (∀ rc ∈ exDropRows, rc.id = "acme/model-a" → rc.snapshot_date = 20250103 →
        rc.downloadsAllTime < 150)) ∧
      ((∀ r ∈ daily_model_downloads exDropRows, r.id = "acme/model-a" →
          r.snapshot_date = 20250103 →
          r.daily_downloads = some (r.downloadsAllTime - 150) ∧
            r.downloadsAllTime - 150 < 0) ∧
        ∀ g ∈ author_daily_downloads (daily_model_downloads exDropRows),
          ∃ vals : List Int, (∀ x ∈ vals, 0 ≤ x) ∧
            g.total_daily_downloads = intSum vals ∧
            g.avg_daily_downloads_per_model = mkRat (intSum vals) vals.length) :=
  ⟨⟨by decide, by decide, by decide, by decide, by decide⟩,
    duckdb_negative_delta_preserved_and_excluded exDropRows "acme/model-a" 20250102 20250103 150
      (by decide) (by decide) (by decide) (by decide) (by decide)⟩

/-! ### C4: what n_models counts. -/

/-- Counterexample to C4 as stated: on 2025-01-02 TWO distinct entities of
author "a" appear in the delta table (a/x with delta 50, a/y with delta
-10), but the aggregate row reports n_models = 1 — the negative-delta
entity is filtered out BEFORE the count, not merely before the sum; and
the 2025-01-01 group (all deltas null) yields no output row at all. -/
theorem duckdb_n_models_excludes_invalid_delta_entities :
    (((daily_model_downloads exDeltaMixRows).filter
        (fun r => decide (r.snapshot_date = 20250102) && decide (r.author = "a"))).map
      (fun r => r.id)).dedup.length = 2 ∧
      author_daily_downloads (daily_model_downloads exDeltaMixRows) =
        [⟨20250102, "a", 1, 50, 50, 150⟩] := by
  constructor
  · decide
  · decide

/-- C4 (amended): every aggregate row's n_models is the number of distinct
entity ids having, for that (snapshot_date, author), at least one delta
record whose delta is non-null and non-negative; entities whose deltas for
that date are all null or negative do not contribute. -/
theorem n_models_counts_only_valid_delta_entities (dt : List DeltaRow) (g : AggRow)
    (hg : g ∈ author_daily_downloads dt) :
    ∃ ids : List String, ids.Nodup ∧ g.n_models = ids.length ∧
      ∀ i, i ∈ ids ↔ ∃ r ∈ dt, r.id = i ∧ r.snapshot_date = g.snapshot_date ∧
        r.author = g.author ∧ ∃ v, r.daily_downloads = some v ∧ 0 ≤ v := by
  rw [author_daily_downloads, mem_sortBy] at hg
  obtain ⟨k, hk, hgk⟩ := List.mem_map.mp hg
  subst hgk
  refine ⟨((groupRows dt k).map (fun r => r.id)).dedup, List.nodup_dedup _, ?_, ?_⟩
  · rfl
  intro i
  rw [List.mem_dedup, List.mem_map]
  constructor
  · rintro ⟨r, hr, hri⟩
    rcases List.mem_filter.mp hr with ⟨hr1, hr2⟩
    rcases List.mem_filter.mp hr1 with ⟨hrdt, hrval⟩
    simp only [Bool.and_eq_true, decide_eq_true_eq] at hr2
    refine ⟨r, hrdt, hri, hr2.1, hr2.2, ?_⟩
    cases hdd : r.daily_downloads with
    | none =>
      rw [hdd] at hrval
      simp [validDelta] at hrval
    | some v =>
      rw [hdd] at hrval
      simp only [validDelta, decide_eq_true_eq] at hrval
      exact ⟨v, rfl, hrval⟩
  · rintro ⟨r, hrdt, hri, hrdate, hrauthor, v, hdv, hvge⟩
    refine ⟨r, ?_, hri⟩
    refine List.mem_filter.mpr ⟨List.mem_filter.mpr ⟨hrdt, ?_⟩, ?_⟩
    · rw [hdv]
      simp only [validDelta, decide_eq_true_eq]
      exact hvge
    · simp only [Bool.and_eq_true, decide_eq_true_eq]
      exact ⟨hrdate, hrauthor⟩

/-- Witness for C4's amended theorem at the mixed fixture: the single
aggregate row's n_models = 1 is exactly the number of valid-delta
entities. -/
theorem n_models_counts_only_valid_delta_entities_witness :
    ((⟨20250102, "a", 1, 50, 50, 150⟩ : AggRow) ∈
        author_daily_downloads (daily_model_downloads exDeltaMixRows)) ∧
      (∃ ids : List String, ids.Nodup ∧
        (⟨20250102, "a", 1, 50, 50, 150⟩ : AggRow).n_models = ids.length ∧
        ∀ i, i ∈ ids ↔ ∃ r ∈ daily_model_downloads exDeltaMixRows, r.id = i ∧
          r.snapshot_date = (⟨20250102, "a", 1, 50, 50, 150⟩ : AggRow).snapshot_date ∧
          r.author = (⟨20250102, "a", 1, 50, 50, 150⟩ : AggRow).author ∧
          ∃ v, r.daily_downloads = some v ∧ 0 ≤ v) :=
  ⟨by decide,
    n_models_counts_only_valid_delta_entities (daily_model_downloads exDeltaMixRows)
      ⟨20250102, "a", 1, 50, 50, 150⟩ (by decide)⟩
